import Mathlib

/-!
Shallow embedding of the Notion task-automation scripts of this repository.

The scripts interact with the Notion REST API: they fetch a database's
property schema, heuristically resolve semantic roles (title, due date,
completion flag) by kind and keyword, build query filter trees, project
typed property values to flat scalars, re-encode raw user input into typed
mutation payloads, and export projected rows as delimited text.

Conventions of the embedding:
- a JS object used as an ordered string-keyed map becomes a `List (String × _)`
  in insertion order (JS `Object.keys` iteration order for string keys);
- JS numbers are modelled exactly: `JsNumber` is NaN, signed infinity or an
  exact rational.  IEEE-754 rounding is not modelled; statements about
  numeric round-trips are restricted to ranges where doubles are exact;
- `fs.writeFile` effects become `Option String`: `some content` is the file
  content written, `none` means the function returned without writing;
- a thrown JS `Error` becomes `none` / `Option` failure.
-/

namespace NotionStudy

/-- JS `String.prototype.toLowerCase`, restricted to ASCII letters (the only
characters the scripts' keyword sets rely on; `Char.toLower` lowers exactly
the ASCII range). -/
def jsToLower (s : String) : String :=
  String.mk (s.toList.map Char.toLower)

/-- A contiguous-subsequence test on character lists; `containsSeq pat l`
is JS `l.includes(pat)` for strings. -/
def containsSeq (pat : List Char) : List Char → Bool
  | [] => pat.isEmpty
  | c :: t => pat.isPrefixOf (c :: t) || containsSeq pat t

/-- JS `haystack.includes(needle)` on strings. -/
def jsIncludes (haystack needle : String) : Bool :=
  containsSeq needle.toList haystack.toList

/-- The Notion property types the scripts dispatch on.  Any other type
string of the open-ended API is represented by `other`. -/
inductive PropKind where
  | title
  | richText
  | number
  | select
  | multiSelect
  | date
  | checkbox
  | status
  | other (typeName : String)
deriving DecidableEq, Repr

/-- A database schema: property name paired with its kind, in JS object
iteration order (the order `Object.keys(dbProps)` yields). -/
abbrev Schema := List (String × PropKind)

/-- The deadline keyword set of the due-date resolver
(`key.toLowerCase().includes('期限') || ... 'due' || 'date' || 'deadline'`). -/
def dueDateKeywords : List String := ["期限", "due", "date", "deadline"]

/-- The completion keyword set of the checkbox resolver
(`'完了' || 'done' || 'complete'`). -/
def completionKeywords : List String := ["完了", "done", "complete"]

/-- One column qualifies as the due-date column: kind `date` and the
lower-cased name contains a deadline keyword. -/
def isDueDateCol (name : String) (k : PropKind) : Bool :=
  k == .date && dueDateKeywords.any (fun kw => jsIncludes (jsToLower name) kw)

/-- One column qualifies as the completion-flag column: kind `checkbox` and
the lower-cased name contains a completion keyword. -/
def isCompletionCol (name : String) (k : PropKind) : Bool :=
  k == .checkbox && completionKeywords.any (fun kw => jsIncludes (jsToLower name) kw)

/-- `Object.keys(dbProps).find(key => dbProps[key].type === 'date' && ...)`:
the first due-date-qualifying property name, `none` when the script would
throw `期限の日付プロパティが見つかりません` (PropertyNotFound). -/
def findDueDateProp (schema : Schema) : Option String :=
  (schema.find? (fun p => isDueDateCol p.1 p.2)).map Prod.fst

/-- The first completion-flag-qualifying property name in schema order. -/
def findCheckboxProp (schema : Schema) : Option String :=
  (schema.find? (fun p => isCompletionCol p.1 p.2)).map Prod.fst

/-- A leaf of a Notion query filter, as built by the scripts. -/
inductive FilterLeaf where
  | dateBefore (prop : String) (d : String)
  | dateOnOrAfter (prop : String) (d : String)
  | dateOnOrBefore (prop : String) (d : String)
  | dateRange (prop : String) (onOrAfter onOrBefore : Option String)
  | checkboxEquals (prop : String) (b : Bool)
deriving DecidableEq, Repr

/-- A Notion query filter: a single leaf, or an `and`/`or` composite over
leaves (the scripts never nest composites). -/
inductive Filter where
  | leaf (l : FilterLeaf)
  | and (cs : List FilterLeaf)
  | or (cs : List FilterLeaf)
deriving DecidableEq, Repr

/-- `getOverdueTasks`'s filter construction: resolve the due-date and
completion properties, start from `[{property: dateProp, date: {before: today}}]`,
push a `checkbox equals false` condition when a completion property was
resolved, and wrap the condition array as `{and: conditions}`.  `none` when
no due-date property resolves (the script throws). -/
def getOverdueFilter (schema : Schema) (todayStr : String) : Option Filter :=
  match findDueDateProp schema with
  | none => none
  | some dateProp =>
    let conditions := [FilterLeaf.dateBefore dateProp todayStr]
    let conditions :=
      match findCheckboxProp schema with
      | some checkboxProp => conditions ++ [FilterLeaf.checkboxEquals checkboxProp false]
      | none => conditions
    some (Filter.and conditions)

/-! ## Typed values and JS numbers -/

/-- One rich-text run.  The scripts write `{text: {content: s}}` and read
back `plain_text`; for plain text the service sets `plain_text` to the
written content, so the run is modelled by that one string. -/
structure TextRun where
  content : String
deriving DecidableEq, Repr

/-- A JS number: NaN, a signed infinity, or a finite value.  Finite values
are exact rationals (double rounding is not modelled). -/
inductive JsNumber where
  | nan
  | inf (neg : Bool)
  | val (q : ℚ)
deriving DecidableEq, Repr

/-- A typed Notion property value, tagged like the API's `type` field.
`Option` payloads model the API's nullable fields (`number`, `select`,
`date`, `status` may be `null`). -/
inductive TypedValue where
  | title (runs : List TextRun)
  | richText (runs : List TextRun)
  | number (n : Option JsNumber)
  | select (name : Option String)
  | multiSelect (names : List String)
  | date (start : Option String)
  | checkbox (b : Bool)
  | status (name : Option String)
  | other (typeName : String)
deriving DecidableEq, Repr

/-- A record's `properties` object: property name to typed value, in JS key
order. -/
abbrev Rec := List (String × TypedValue)

/-! ## Parsing JS numbers (`parseFloat`) and printing them (`toString`) -/

/-- The numeric value of an ASCII digit character. -/
def charToDigit (c : Char) : Nat := c.toNat - '0'.toNat

/-- Most-significant-first decimal value of a digit list. -/
def digitsVal (cs : List Char) : Nat :=
  cs.foldl (fun a c => 10 * a + charToDigit c) 0

/-- JS whitespace skipped by `parseFloat` (the ASCII part; the scripts never
feed other whitespace). -/
def isJsWs (c : Char) : Bool :=
  c == ' ' || c == '\t' || c == '\n' || c == '\r' || c == '\x0b' || c == '\x0c'

/-- Strip one optional sign; returns (isNegative, rest). -/
def stripSign (cs : List Char) : Bool × List Char :=
  match cs with
  | c :: t => if c == '-' then (true, t) else if c == '+' then (false, t) else (false, cs)
  | [] => (false, [])

/-- JS `parseFloat`: skip leading whitespace, optional sign, then the
longest prefix of the form `digits [. digits] [e|E [sign] digits]` or the
keyword `Infinity`; NaN when no digits are found.  The numeric value is
exact (no rounding to binary64). -/
def jsParseFloat (s : String) : JsNumber :=
  let cs0 := s.toList.dropWhile isJsWs
  let sgn := stripSign cs0
  let neg := sgn.1
  let cs := sgn.2
  if ("Infinity".toList).isPrefixOf cs then JsNumber.inf neg
  else
    let intPart := cs.takeWhile Char.isDigit
    let rest := cs.dropWhile Char.isDigit
    let fracSplit : List Char × List Char :=
      match rest with
      | '.' :: t => (t.takeWhile Char.isDigit, t.dropWhile Char.isDigit)
      | _ => ([], rest)
    let fracPart := fracSplit.1
    let rest2 := fracSplit.2
    if intPart.isEmpty && fracPart.isEmpty then JsNumber.nan
    else
      let mant : ℚ :=
        (digitsVal intPart : ℚ) + (digitsVal fracPart : ℚ) / (10 : ℚ) ^ fracPart.length
      let expVal : Int :=
        match rest2 with
        | c :: t =>
          if c == 'e' || c == 'E' then
            let esgn := stripSign t
            let eds := esgn.2.takeWhile Char.isDigit
            if eds.isEmpty then 0
            else if esgn.1 then -(digitsVal eds : Int) else (digitsVal eds : Int)
          else 0
        | [] => 0
      let v : ℚ := mant * (10 : ℚ) ^ expVal
      JsNumber.val (if neg then -v else v)

/-- Decimal digits of `n`, most significant first; the first argument is
recursion fuel (`n` itself is always enough).  Empty for `n = 0`. -/
def natDecAux : Nat → Nat → List Char
  | 0, _ => []
  | _ + 1, 0 => []
  | fuel + 1, n + 1 =>
    natDecAux fuel ((n + 1) / 10) ++ [Nat.digitChar ((n + 1) % 10)]

/-- Canonical decimal rendering of a natural number (JS `toString` on an
integral value). -/
def natDecimal (n : Nat) : String :=
  if n = 0 then "0" else String.mk (natDecAux n n)

/-- Canonical decimal rendering of an integer (JS `toString` on an
integral value): a minus sign followed by the digits for negatives. -/
def intDecimal (i : Int) : String :=
  if i < 0 then "-" ++ natDecimal i.natAbs else natDecimal i.natAbs

/-- Fractional decimal digits of a rational `0 ≤ r < 1`, fuel-bounded.
Values produced by `jsParseFloat` have denominators dividing a power of 10,
so their expansions terminate well within the fuel. -/
def fracDigits : Nat → ℚ → List Char
  | 0, _ => []
  | fuel + 1, r =>
    if r = 0 then []
    else
      let r10 := r * 10
      let d : Nat := (r10.num / (r10.den : Int)).toNat
      Nat.digitChar d :: fracDigits fuel (r10 - (d : ℚ))

/-- Decimal rendering of a nonnegative rational. -/
def qAbsToString (q : ℚ) : String :=
  let ip : Nat := (q.num / (q.den : Int)).toNat
  let fr : ℚ := q - (ip : ℚ)
  if fr = 0 then natDecimal ip
  else natDecimal ip ++ "." ++ String.mk (fracDigits 64 fr)

/-- JS `Number.prototype.toString` on the modelled numbers (plain decimal
form; the scripts' data never reaches the exponent-form magnitudes). -/
def jsNumberToString : JsNumber → String
  | .nan => "NaN"
  | .inf neg => if neg then "-Infinity" else "Infinity"
  | .val q => if q < 0 then "-" ++ qAbsToString (-q) else qAbsToString q

/-! ## Value projection (exportToCSV of the filtering script, and the
pretty-printer / simple-export variants) -/

/-- The per-kind projection switch of the second `exportToCSV`
(`database-contents.csv` export) and of `displayDatabaseContents`:
title/rich_text take the first run's `plain_text` with `|| ''` fallback,
select takes `select?.name || ''`, multi_select joins names with `'; '`,
date takes `date?.start || ''`, checkbox renders `'TRUE'`/`'FALSE'`,
number renders `number !== null ? number.toString() : ''`, and every
other type — `status` included, the switch has no case for it — falls to
the `default` branch yielding `''`. -/
def project : TypedValue → String
  | .title runs => ((runs.head?).map TextRun.content).getD ""
  | .richText runs => ((runs.head?).map TextRun.content).getD ""
  | .number n =>
    match n with
    | none => ""
    | some jn => jsNumberToString jn
  | .select name => name.getD ""
  | .multiSelect names => String.intercalate "; " names
  | .date start => start.getD ""
  | .checkbox b => if b then "TRUE" else "FALSE"
  | .status _ => ""
  | .other _ => ""

/-- The per-kind projection of the first `exportToCSV` (the simple
filtering script): only title, rich_text, date and select are handled;
everything else keeps the initial `''`. -/
def projectCSV1 : TypedValue → String
  | .title runs => ((runs.head?).map TextRun.content).getD ""
  | .richText runs => ((runs.head?).map TextRun.content).getD ""
  | .date start => start.getD ""
  | .select name => name.getD ""
  | _ => ""

/-! ## Payload building (handleCreatePage / handleUpdatePage switches) -/

/-- The accepted affirmative tokens of the checkbox input parser:
`value.toLowerCase() === 'true' || === 'yes' || === 'はい'`. -/
def checkboxTrue (raw : String) : Bool :=
  jsToLower raw == "true" || jsToLower raw == "yes" || jsToLower raw == "はい"

/-- The property-type switch of `handleUpdatePage` (the create path is the
same switch minus the title case): raw console input re-encoded as the
column's typed mutation payload.  `none` models the `default` branch (the
script reports the type as unsupported and returns). -/
def buildPayload (k : PropKind) (raw : String) : Option TypedValue :=
  match k with
  | .title => some (.title [⟨raw⟩])
  | .richText => some (.richText [⟨raw⟩])
  | .number => some (.number (some (jsParseFloat raw)))
  | .date => some (.date (some raw))
  | .select => some (.select (some raw))
  | .checkbox => some (.checkbox (checkboxTrue raw))
  | _ => none

/-! ## CSV rendering -/

/-- The field rule of the first `exportToCSV` (`all-tasks.csv` etc.):
`value.includes(',') ? "..." : value` — wrap in double quotes when the
value contains a comma; embedded double quotes are left as they are. -/
def csvField1 (v : String) : String :=
  if jsIncludes v "," then "\"" ++ v ++ "\"" else v

/-- The field rule of `saveDataToCsv` (`records.csv`): same comma test
(`typeof value === 'string' && value.includes(',')`; every exported value
is a string there). -/
def saveDataToCsvField (v : String) : String :=
  if jsIncludes v "," then "\"" ++ v ++ "\"" else v

/-- JS `value.replace(/"/g, '""')`: double every double quote. -/
def escQuotes (v : String) : String :=
  String.mk (v.toList.foldr (fun c acc => if c == '"' then '"' :: '"' :: acc else c :: acc) [])

/-- The field rule of the second `exportToCSV`: always wrap in double
quotes, doubling embedded double quotes. -/
def csvField2 (v : String) : String :=
  "\"" ++ escQuotes v ++ "\""

/-- The first `exportToCSV` (the filtering script): `none` when
`data.results` is empty (the script logs `データがありません` and returns
before touching the file); otherwise the content written — header from the
first record's property names, one line per record, prefixed with the
U+FEFF byte-order mark (the script writes BOM + csv).  Records are assumed to share
the first record's keys (the script would crash on heterogeneous data);
a missing key is mapped to an unknown-kind value. -/
def exportToCSV1 (results : List Rec) : Option String :=
  match results with
  | [] => none
  | first :: _ =>
    let props := first.map Prod.fst
    let header := String.intercalate "," props ++ "\n"
    let body := results.foldl
      (fun csv item =>
        csv ++ String.intercalate ","
          (props.map fun p => csvField1 (projectCSV1 ((item.lookup p).getD (.other "undefined"))))
          ++ "\n")
      header
    some ("\uFEFF" ++ body)

/-- The second `exportToCSV` (`database-contents.csv`): `none` when the
result list is empty (`エクスポートするデータがありません`); otherwise the
content written — no byte-order mark, every field quoted with doubled
quotes. -/
def exportToCSV2 (results : List Rec) : Option String :=
  match results with
  | [] => none
  | first :: _ =>
    let props := first.map Prod.fst
    let header := String.intercalate "," props ++ "\n"
    let body := results.foldl
      (fun csv item =>
        csv ++ String.intercalate ","
          (props.map fun p => csvField2 (project ((item.lookup p).getD (.other "undefined"))))
          ++ "\n")
      header
    some body

/-- `saveDataToCsv` of the record-count script, on rows of already-flat
string values: header from the first row's keys, then one line per row
(no trailing newline), comma-quoting per `saveDataToCsvField`.  On an
empty array `Object.keys(data[0])` throws and the catch block writes
nothing: `none`. -/
def saveDataToCsvRender (data : List (List (String × String))) : Option String :=
  match data with
  | [] => none
  | first :: _ =>
    let headers := String.intercalate "," (first.map Prod.fst) ++ "\n"
    let rows := String.intercalate "\n"
      (data.map fun row =>
        String.intercalate "," (row.map fun kv => saveDataToCsvField kv.2))
    some (headers ++ rows)

/-- A formatted task of the simple filtering script (`formatResults`
output): title, optional due date, optional completion flag, URL. -/
structure TaskItem where
  title : String
  date : Option String
  completed : Option Bool
  url : String
deriving DecidableEq, Repr

/-- `exportToCsv` of the simple filtering script (tasks CSV): fixed header,
title and URL always quoted (title with doubled quotes), date quoted when
truthy, completion flag rendered `はい`/`いいえ`, lines joined by `\n`. -/
def exportToCsvTasks (results : List TaskItem) : String :=
  let rows := String.intercalate "," ["タイトル", "期限", "完了", "URL"] ::
    results.map fun task =>
      String.intercalate ","
        ["\"" ++ escQuotes task.title ++ "\"",
         (match task.date with
          | some d => if d.isEmpty then "" else "\"" ++ d ++ "\""
          | none => ""),
         (match task.completed with
          | some b => "\"" ++ (if b then "はい" else "いいえ") ++ "\""
          | none => ""),
         "\"" ++ task.url ++ "\""]
  String.intercalate "\n" rows

/-- The export decision of the filtering script's `main`: the CSV file is
written only when `results.length > 0`. -/
def mainCsvWrite (results : List TaskItem) : Option String :=
  if results.length > 0 then some (exportToCsvTasks results) else none

/-! ## Local overdue counting (countTasks) -/

/-- Lexicographic order on character lists: JS `<` compares strings code
unit by code unit (for the scripts' ASCII date strings, code units and
code points coincide). -/
def lexLt : List Char → List Char → Bool
  | [], [] => false
  | [], _ :: _ => true
  | _ :: _, [] => false
  | a :: as, b :: bs => a < b || (a == b && lexLt as bs)

/-- JS string `<`. -/
def jsStrLt (a b : String) : Bool :=
  lexLt a.toList b.toList

/-- `properties['due date']?.date?.start` of a record: `none` when the
property is absent, is not a date property, or its date value is null. -/
def dueDateStart (r : Rec) : Option String :=
  match r.lookup "due date" with
  | some (.date (some s)) => some s
  | _ => none

/-- The overdue test of `countTasks`: the due-date start exists, is truthy
(non-empty), and `dueDate < today` — JS string `<`, plain lexicographic
comparison of the two strings. -/
def isOverdueRec (today : String) (r : Rec) : Bool :=
  match dueDateStart r with
  | some s => !s.isEmpty && jsStrLt s today
  | none => false

/-- The `overdueCount` accumulation of `countTasks` over `data.results`. -/
def countOverdue (results : List Rec) (today : String) : Nat :=
  results.foldl (fun acc r => if isOverdueRec today r then acc + 1 else acc) 0

/-! ## Calendar-date reading of date strings (for comparison with the
string order; not part of the scripts) -/

/-- Split a character list on a separator. -/
def splitOnChar (sep : Char) : List Char → List (List Char)
  | [] => [[]]
  | c :: t =>
    let r := splitOnChar sep t
    if c == sep then [] :: r
    else
      match r with
      | h :: t2 => (c :: h) :: t2
      | [] => [[c]]

/-- A nonempty all-digit chunk read as a number. -/
def decNat? (cs : List Char) : Option Nat :=
  if !cs.isEmpty && cs.all Char.isDigit then some (digitsVal cs) else none

/-- Read `Y-M-D` with any digit-run widths as a calendar date. -/
def parseYMD (s : String) : Option (Nat × Nat × Nat) :=
  match (splitOnChar '-' s.toList).map decNat? with
  | [some y, some m, some d] => some (y, m, d)
  | _ => none

/-- Chronological order of two calendar dates. -/
def ymdBefore (a b : Nat × Nat × Nat) : Bool :=
  a.1 < b.1 || (a.1 == b.1 && (a.2.1 < b.2.1 || (a.2.1 == b.2.1 && a.2.2 < b.2.2)))

/-- `chronBefore a b`: both strings read as calendar dates and `a` denotes
an earlier calendar date than `b`. -/
def chronBefore (a b : String) : Bool :=
  match parseYMD a, parseYMD b with
  | some x, some y => ymdBefore x y
  | _, _ => false

/-! ## Helper lemmas: decimal digits, parsing and printing -/

theorem charToDigit_digitChar {d : Nat} (h : d < 10) :
    charToDigit (Nat.digitChar d) = d := by
  interval_cases d <;> rfl

theorem isDigit_digitChar {d : Nat} (h : d < 10) :
    (Nat.digitChar d).isDigit = true := by
  interval_cases d <;> rfl

theorem digitsVal_append (l : List Char) (c : Char) :
    digitsVal (l ++ [c]) = 10 * digitsVal l + charToDigit c := by
  simp [digitsVal, List.foldl_append]

theorem natDecAux_spec :
    ∀ f n, n ≤ f →
      digitsVal (natDecAux f n) = n ∧ ∀ c ∈ natDecAux f n, c.isDigit = true := by
  intro f
  induction f with
  | zero => intro n hn; interval_cases n; simp [natDecAux, digitsVal]
  | succ f ih =>
    intro n hn
    match n with
    | 0 => simp [natDecAux, digitsVal]
    | m + 1 =>
      have hdiv : (m + 1) / 10 ≤ f := by
        have : (m + 1) / 10 < m + 1 := Nat.div_lt_self (Nat.succ_pos m) (by norm_num)
        omega
      have ihd := ih ((m + 1) / 10) hdiv
      constructor
      · rw [natDecAux, digitsVal_append, ihd.1,
          charToDigit_digitChar (Nat.mod_lt _ (by norm_num))]
        omega
      · intro c hc
        rw [natDecAux] at hc
        rcases List.mem_append.mp hc with h1 | h1
        · exact ihd.2 c h1
        · simp at h1
          rw [h1]
          exact isDigit_digitChar (Nat.mod_lt _ (by norm_num))

theorem natDecimal_spec (n : Nat) :
    (natDecimal n).toList ≠ [] ∧ (∀ c ∈ (natDecimal n).toList, c.isDigit = true) ∧
      digitsVal (natDecimal n).toList = n := by
  by_cases h0 : n = 0
  · subst h0; refine ⟨by decide, by decide, by decide⟩
  · have hs := natDecAux_spec n n le_rfl
    have htl : (natDecimal n).toList = natDecAux n n := by
      simp [natDecimal, h0, String.toList]
    refine ⟨?_, ?_, ?_⟩
    · rw [htl]
      intro he
      rw [he] at hs
      simp [digitsVal] at hs
      omega
    · rw [htl]; exact hs.2
    · rw [htl]; exact hs.1

theorem isDigit_not_special {c x : Char} (hx : x.isDigit = false)
    (h : c.isDigit = true) : (x == c) = false := by
  cases hxc : x == c
  · rfl
  · rw [beq_iff_eq] at hxc
    rw [hxc, h] at hx
    exact absurd hx (by simp)

theorem isJsWs_of_digit {c : Char} (h : c.isDigit = true) : isJsWs c = false := by
  have h1 := isDigit_not_special (x := ' ') (by decide) h
  have h2 := isDigit_not_special (x := '\t') (by decide) h
  have h3 := isDigit_not_special (x := '\n') (by decide) h
  have h4 := isDigit_not_special (x := '\r') (by decide) h
  have h5 := isDigit_not_special (x := '\x0b') (by decide) h
  have h6 := isDigit_not_special (x := '\x0c') (by decide) h
  simp [isJsWs]
  rw [BEq.comm] at h1 h2 h3 h4 h5 h6
  simp_all

theorem jsParseFloat_digits (cs : List Char) (hne : cs ≠ [])
    (hall : ∀ c ∈ cs, c.isDigit = true) :
    jsParseFloat (String.mk cs) = .val (digitsVal cs : ℚ) := by
  match cs, hne with
  | c :: t, _ =>
    have hd : c.isDigit = true := hall c (List.mem_cons_self c t)
    have hws : isJsWs c = false := isJsWs_of_digit hd
    have hminus : (c == '-') = false := by
      rw [BEq.comm]; exact isDigit_not_special (by decide) hd
    have hplus : (c == '+') = false := by
      rw [BEq.comm]; exact isDigit_not_special (by decide) hd
    have hI : (('I' : Char) == c) = false := isDigit_not_special (by decide) hd
    have htk : (c :: t).takeWhile Char.isDigit = c :: t :=
      List.takeWhile_eq_self_iff.mpr hall
    have hdp : (c :: t).dropWhile Char.isDigit = [] :=
      List.dropWhile_eq_nil_iff.mpr hall
    simp only [jsParseFloat, String.toList, String.mk]
    rw [List.dropWhile_cons, hws]
    simp only [Bool.false_eq_true, if_false, stripSign, hminus, hplus, if_false]
    have hpre : List.isPrefixOf ['I', 'n', 'f', 'i', 'n', 'i', 't', 'y'] (c :: t) = false := by
      simp [List.isPrefixOf, hI]
    rw [hpre]
    simp only [Bool.false_eq_true, if_false, htk, hdp]
    simp [digitsVal]

theorem jsParseFloat_natDecimal (n : Nat) :
    jsParseFloat (natDecimal n) = .val (n : ℚ) := by
  obtain ⟨hne, hall, hval⟩ := natDecimal_spec n
  have : String.mk (natDecimal n).toList = natDecimal n := rfl
  rw [← this, jsParseFloat_digits _ hne hall, hval]

theorem qAbsToString_natCast (n : Nat) : qAbsToString (n : ℚ) = natDecimal n := by
  simp [qAbsToString, Rat.num_natCast, Rat.den_natCast]

theorem jsNumberToString_natCast (n : Nat) :
    jsNumberToString (.val (n : ℚ)) = natDecimal n := by
  have h0 : ¬((n : ℚ) < 0) := not_lt.mpr (Nat.cast_nonneg n)
  simp [jsNumberToString, h0, qAbsToString_natCast]

theorem jsParseFloat_neg_digits (cs : List Char) (hne : cs ≠ [])
    (hall : ∀ c ∈ cs, c.isDigit = true) :
    jsParseFloat (String.mk ('-' :: cs)) = .val (-(digitsVal cs : ℚ)) := by
  match cs, hne with
  | c :: t, _ =>
    have hd : c.isDigit = true := hall c (List.mem_cons_self c t)
    have hI : (('I' : Char) == c) = false := isDigit_not_special (by decide) hd
    have htk : (c :: t).takeWhile Char.isDigit = c :: t :=
      List.takeWhile_eq_self_iff.mpr hall
    have hdp : (c :: t).dropWhile Char.isDigit = [] :=
      List.dropWhile_eq_nil_iff.mpr hall
    simp only [jsParseFloat, String.toList, String.mk]
    rw [List.dropWhile_cons]
    rw [show isJsWs '-' = false by decide]
    simp only [Bool.false_eq_true, if_false, stripSign]
    rw [show (('-' : Char) == '-') = true by decide]
    simp only [if_true]
    have hpre : List.isPrefixOf ['I', 'n', 'f', 'i', 'n', 'i', 't', 'y'] (c :: t) = false := by
      simp [List.isPrefixOf, hI]
    rw [hpre]
    simp only [Bool.false_eq_true, if_false, htk, hdp]
    simp [digitsVal]

theorem jsParseFloat_intDecimal (i : Int) :
    jsParseFloat (intDecimal i) = .val (i : ℚ) := by
  by_cases h : i < 0
  · obtain ⟨hne, hall, hval⟩ := natDecimal_spec i.natAbs
    have hmk : intDecimal i = String.mk ('-' :: (natDecimal i.natAbs).toList) := by
      simp only [intDecimal, if_pos h]
      rfl
    rw [hmk, jsParseFloat_neg_digits _ hne hall, hval]
    congr 1
    rw [Int.cast_natAbs, abs_of_neg h]
    push_cast
    ring
  · have hid : intDecimal i = natDecimal i.natAbs := by simp [intDecimal, h]
    rw [hid, jsParseFloat_natDecimal]
    congr 1
    rw [Int.cast_natAbs, abs_of_nonneg (not_lt.mp h)]

theorem jsNumberToString_intCast (i : Int) :
    jsNumberToString (.val (i : ℚ)) = intDecimal i := by
  by_cases h : i < 0
  · have hq : ((i : ℚ)) < 0 := by exact_mod_cast h
    have hcast : -(i : ℚ) = (i.natAbs : ℚ) := by
      rw [Int.cast_natAbs, abs_of_neg h]
      push_cast
      ring
    simp only [jsNumberToString, if_pos hq]
    rw [hcast, qAbsToString_natCast]
    simp [intDecimal, h]
  · have hq0 : (0 : ℚ) ≤ (i : ℚ) := by exact_mod_cast not_lt.mp h
    have hq : ¬((i : ℚ) < 0) := not_lt.mpr hq0
    have hcast : (i : ℚ) = (i.natAbs : ℚ) := by
      rw [Int.cast_natAbs, abs_of_nonneg (not_lt.mp h)]
    simp only [jsNumberToString, if_neg hq]
    rw [hcast, qAbsToString_natCast]
    simp [intDecimal, h]

theorem append_newline_getLast (x : String) :
    (x ++ "\n").toList.getLast? = some '\n' := by
  rw [String.toList, String.data_append]
  exact List.getLast?_concat x.data

theorem foldl_lines_getLast (f : Rec → String) :
    ∀ (l : List Rec) (acc : String), acc.toList.getLast? = some '\n' →
      (l.foldl (fun csv item => csv ++ f item ++ "\n") acc).toList.getLast? = some '\n' := by
  intro l
  induction l with
  | nil => exact fun _ h => h
  | cons r rs ih =>
    intro acc _
    rw [List.foldl_cons]
    exact ih _ (append_newline_getLast _)

theorem bom_append_getLast (body : String) (h : body.toList.getLast? = some '\n') :
    ("\uFEFF" ++ body).toList.getLast? = some '\n' := by
  have hne : body.data ≠ [] := by
    intro he
    rw [String.toList, he] at h
    simp at h
  rw [String.toList, String.data_append, List.getLast?_append_of_ne_nil _ hne]
  exact h

theorem lexLt_iff : ∀ as bs : List Char, lexLt as bs = true ↔ as < bs := by
  intro as
  induction as with
  | nil =>
    intro bs
    cases bs with
    | nil => simp [lexLt]
    | cons b bs =>
      simp [lexLt]
      exact List.Lex.nil
  | cons a as ih =>
    intro bs
    cases bs with
    | nil => simp [lexLt]
    | cons b bs =>
      simp only [lexLt, Bool.or_eq_true, Bool.and_eq_true, beq_iff_eq, decide_eq_true_eq, ih]
      constructor
      · rintro (h | ⟨rfl, h⟩)
        · exact List.Lex.rel h
        · exact List.Lex.cons h
      · intro h
        cases h with
        | cons htl => exact Or.inr ⟨rfl, htl⟩
        | rel hr => exact Or.inl hr

/-- The embedded JS string comparison agrees with Lean's lexicographic
`String` order. -/
theorem jsStrLt_iff (a b : String) : jsStrLt a b = true ↔ a < b :=
  (lexLt_iff a.toList b.toList).trans String.lt_iff_toList_lt.symm

/-- Counting fold with a shifted accumulator. -/
theorem countOverdue_acc (today : String) :
    ∀ (results : List Rec) (a : Nat),
      results.foldl (fun acc r => if isOverdueRec today r then acc + 1 else acc) a =
        a + results.foldl (fun acc r => if isOverdueRec today r then acc + 1 else acc) 0 := by
  intro results
  induction results with
  | nil => simp
  | cons r rs ih =>
    intro a
    by_cases h : isOverdueRec today r
    · simp only [List.foldl_cons, h, if_true]
      rw [ih (a + 1), ih 1]
      omega
    · simp only [List.foldl_cons, h, if_false]
      exact ih a

/-! ## The claims -/

/-- Claim C1, counterexample to the claim as stated: for a schema with a
due-date column and no completion-flag column, the overdue filter is an
`and` composite holding the single `Date.before` leaf — it is not the bare
leaf the claim requires. -/
theorem claim_C1_counterexample :
    getOverdueFilter [("due date", .date)] "2025-04-25" =
      some (.and [.dateBefore "due date" "2025-04-25"])
  ∧ Filter.and [.dateBefore "due date" "2025-04-25"] ≠
      Filter.leaf (.dateBefore "due date" "2025-04-25") := by
  constructor
  · decide
  · decide

/-- Claim C1 (amended): for every schema in which the due-date column
resolves, the overdue filter for a given today-date is an `and` composite
whose children are, in order, the `Date.before` leaf on the due-date column
and the `Checkbox.equals`-false leaf on the completion column when one
resolves; when no completion column resolves, the `and` composite holds
exactly the single `Date.before` leaf (still wrapped in the composite). -/
theorem claim_C1 : ∀ (schema : Schema) (today dcol : String),
    findDueDateProp schema = some dcol →
      (∀ ccol, findCheckboxProp schema = some ccol →
        getOverdueFilter schema today =
          some (.and [.dateBefore dcol today, .checkboxEquals ccol false]))
    ∧ (findCheckboxProp schema = none →
        getOverdueFilter schema today = some (.and [.dateBefore dcol today])) := by
  intro schema today dcol hd
  constructor
  · intro ccol hc
    simp [getOverdueFilter, hd, hc]
  · intro hc
    simp [getOverdueFilter, hd, hc]

/-- Claim C1, witness: both branches of the amended claim at concrete
schemas. -/
theorem claim_C1_witness :
    getOverdueFilter [("Task", .title), ("due date", .date), ("done", .checkbox)] "2025-04-25" =
      some (.and [.dateBefore "due date" "2025-04-25", .checkboxEquals "done" false])
  ∧ getOverdueFilter [("due", .date)] "2025-04-25" =
      some (.and [.dateBefore "due" "2025-04-25"]) :=
  ⟨(claim_C1 _ "2025-04-25" "due date" (by decide)).1 "done" (by decide),
   (claim_C1 _ "2025-04-25" "due" (by decide)).2 (by decide)⟩

/-- Claim C2, counterexample to the claim as stated: the round trip fails
on well-formed inputs — the accepted checkbox input `"true"` projects back
as `"TRUE"`, and the number literal `"1.0"` projects back as `"1"`. -/
theorem claim_C2_counterexample :
    ((buildPayload .checkbox "true").map project = some "TRUE" ∧ ("TRUE" : String) ≠ "true")
  ∧ ((buildPayload .number "1.0").map project = some "1" ∧ ("1" : String) ≠ "1.0") := by
  refine ⟨⟨by decide, by decide⟩, ?_, by decide⟩
  have h1 : jsParseFloat "1.0" = .val 1 := by
    simp [jsParseFloat, stripSign, digitsVal, charToDigit, List.takeWhile, List.dropWhile,
      isJsWs, List.isPrefixOf]
  have h2 : jsNumberToString (.val (1 : ℚ)) = "1" := by
    have h3 := jsNumberToString_natCast 1
    rw [Nat.cast_one] at h3
    rw [h3]
    decide
  simp [buildPayload, h1, project, h2]

/-- Claim C2 (amended): the projection/payload round trip holds on
canonical forms — for Title/Text and Date it holds for every input string;
for Checkbox it holds exactly for the projector's own output tokens
`"TRUE"` and `"FALSE"`; for Number it holds for the canonical decimal
rendering of any integer (negatives included) whose magnitude is in the
range where binary64 integers are exact. -/
theorem claim_C2 :
    (∀ s : String, (buildPayload .title s).map project = some s)
  ∧ (∀ s : String, (buildPayload .richText s).map project = some s)
  ∧ (∀ s : String, (buildPayload .date s).map project = some s)
  ∧ (∀ s : String,
      ((buildPayload .checkbox s).map project = some s ↔ s = "TRUE" ∨ s = "FALSE"))
  ∧ (∀ i : Int, i.natAbs < 2 ^ 53 →
      (buildPayload .number (intDecimal i)).map project = some (intDecimal i)) := by
  refine ⟨fun _ => rfl, fun _ => rfl, fun _ => rfl, ?_, ?_⟩
  · intro s
    constructor
    · intro h
      simp only [buildPayload, Option.map_some, project, Option.some_inj] at h
      by_cases hb : checkboxTrue s
      · rw [hb] at h
        simp at h
        exact Or.inl h.symm
      · rw [Bool.not_eq_true] at hb
        rw [hb] at h
        simp at h
        exact Or.inr h.symm
    · rintro (rfl | rfl) <;> decide
  · intro i hi
    simp [buildPayload, jsParseFloat_intDecimal, project, jsNumberToString_intCast]

/-- Claim C2, witness: the number round trip at the negative integer `-42`. -/
theorem claim_C2_witness :
    ((-42 : Int)).natAbs < 2 ^ 53
  ∧ (buildPayload .number (intDecimal (-42))).map project = some (intDecimal (-42)) :=
  ⟨by decide, claim_C2.2.2.2.2 (-42) (by decide)⟩

/-- Claim C3, counterexample to the claim as stated: a Status value with a
selected option projects to the empty string, not to the option's name. -/
theorem claim_C3_counterexample :
    project (.status (some "Done")) = "" ∧ ("" : String) ≠ "Done" :=
  ⟨rfl, by decide⟩

/-- Claim C3 (amended): projection is total and per kind yields — Title/Text
the first run's plain content or empty when the run sequence is empty;
Number the rendered numeric value or empty when null; SingleSelect the
selected name or empty; MultiSelect the names joined with `"; "`; Date the
start string or empty; Checkbox the `TRUE`/`FALSE` token; and Status — for
which the switch has no case — and every unknown kind the empty string,
never an error. -/
theorem claim_C3 :
    (∀ (r : TextRun) (rs : List TextRun), project (.title (r :: rs)) = r.content)
  ∧ project (.title []) = ""
  ∧ (∀ (r : TextRun) (rs : List TextRun), project (.richText (r :: rs)) = r.content)
  ∧ project (.richText []) = ""
  ∧ (∀ jn : JsNumber, project (.number (some jn)) = jsNumberToString jn)
  ∧ project (.number none) = ""
  ∧ (∀ s : String, project (.select (some s)) = s)
  ∧ project (.select none) = ""
  ∧ (∀ names : List String, project (.multiSelect names) = String.intercalate "; " names)
  ∧ (∀ d : String, project (.date (some d)) = d)
  ∧ project (.date none) = ""
  ∧ (∀ b : Bool, project (.checkbox b) = if b then "TRUE" else "FALSE")
  ∧ (∀ s : Option String, project (.status s) = "")
  ∧ (∀ t : String, project (.other t) = "") :=
  ⟨fun _ _ => rfl, rfl, fun _ _ => rfl, rfl, fun _ => rfl, rfl, fun _ => rfl, rfl,
   fun _ => rfl, fun _ => rfl, rfl, fun _ => rfl, fun _ => rfl, fun _ => rfl⟩

/-- Claim C4: the due-date resolver returns the first column in schema
order whose kind is Date and whose lower-cased name contains a deadline
keyword — a qualifying column after it is ignored; when no column
qualifies the resolution fails (PropertyNotFound); and qualification is
exactly kind = Date plus a case-insensitive keyword hit. -/
theorem claim_C4 :
    (∀ (pre post : Schema) (name : String) (k : PropKind),
      (∀ p ∈ pre, isDueDateCol p.1 p.2 = false) → isDueDateCol name k = true →
        findDueDateProp (pre ++ (name, k) :: post) = some name)
  ∧ (∀ schema : Schema, (∀ p ∈ schema, isDueDateCol p.1 p.2 = false) →
        findDueDateProp schema = none)
  ∧ (∀ (name : String) (k : PropKind),
      isDueDateCol name k = true ↔
        k = .date ∧ ∃ kw ∈ dueDateKeywords, jsIncludes (jsToLower name) kw = true) := by
  refine ⟨?_, ?_, ?_⟩
  · intro pre post name k hpre hq
    induction pre with
    | nil => simp [findDueDateProp, List.find?, hq]
    | cons p ps ih =>
      have hp : isDueDateCol p.1 p.2 = false := hpre p (List.mem_cons_self p ps)
      have hrest : ∀ q ∈ ps, isDueDateCol q.1 q.2 = false :=
        fun q hq2 => hpre q (List.mem_cons_of_mem p hq2)
      simp only [findDueDateProp, List.cons_append, List.find?] at ih ⊢
      rw [hp]
      exact ih hrest
  · intro schema hall
    have hf : List.find? (fun p => isDueDateCol p.1 p.2) schema = none :=
      List.find?_eq_none.mpr fun p hp => by simp [hall p hp]
    simp [findDueDateProp, hf]
  · intro name k
    simp [isDueDateCol, List.any_eq_true, beq_iff_eq]

/-- Claim C4, witness: a schema with two qualifying Date columns resolves
to the first, and a schema with none fails. -/
theorem claim_C4_witness :
    findDueDateProp [("Task", .title), ("締切 期限", .date), ("deadline 2", .date)] =
      some "締切 期限"
  ∧ findDueDateProp [("Task", .title), ("メモ", .richText)] = none :=
  ⟨claim_C4.1 [("Task", .title)] [("deadline 2", .date)] "締切 期限" .date
      (by decide) (by decide),
   claim_C4.2.1 [("Task", .title), ("メモ", .richText)] (by decide)⟩

/-- Claim C5, counterexample to the claim as stated: a value containing a
double quote but no delimiter is rendered byte-for-byte unchanged — the
embedded quotes are not doubled and the spec's expected rendering differs. -/
theorem claim_C5_counterexample :
    csvField1 "he said \"hi\"" = "he said \"hi\""
  ∧ saveDataToCsvField "he said \"hi\"" = "he said \"hi\""
  ∧ ("he said \"hi\"" : String) ≠ "\"he said \"\"hi\"\"\"" := by
  refine ⟨by decide, by decide, by decide⟩

/-- Claim C5 (amended): in both cited CSV renderers a field containing the
delimiter is wrapped in double quotes with its content unchanged (embedded
double quotes are not escaped), and a field without the delimiter is
rendered byte-for-byte unchanged. -/
theorem claim_C5 : ∀ v : String,
    (jsIncludes v "," = true →
      csvField1 v = "\"" ++ v ++ "\"" ∧ saveDataToCsvField v = "\"" ++ v ++ "\"")
  ∧ (jsIncludes v "," = false →
      csvField1 v = v ∧ saveDataToCsvField v = v) := by
  intro v
  constructor <;> intro h <;> simp [csvField1, saveDataToCsvField, h]

/-- Claim C5, witness: both branches at concrete fields. -/
theorem claim_C5_witness :
    jsIncludes "a,b" "," = true ∧ csvField1 "a,b" = "\"a,b\""
  ∧ jsIncludes "x" "," = false ∧ csvField1 "x" = "x" :=
  ⟨by decide, ((claim_C5 "a,b").1 (by decide)).1, by decide, ((claim_C5 "x").2 (by decide)).1⟩

/-- Claim C6: checkbox payload building yields true exactly when the
lower-cased input is `"true"`, `"yes"` or `"はい"`; every other input —
the empty string and `"TRUE "` included — yields false, and a payload is
always produced (never an error). -/
theorem claim_C6 : ∀ raw : String,
    buildPayload .checkbox raw = some (.checkbox (checkboxTrue raw))
  ∧ (checkboxTrue raw = true ↔
      (jsToLower raw = "true" ∨ jsToLower raw = "yes" ∨ jsToLower raw = "はい"))
  ∧ checkboxTrue "" = false ∧ checkboxTrue "TRUE " = false ∧ checkboxTrue "Yes" = true := by
  intro raw
  refine ⟨rfl, ?_, by decide, by decide, by decide⟩
  simp [checkboxTrue, Bool.or_eq_true, beq_iff_eq, or_assoc]

/-- Claim C7: when the raw input does not parse as a float literal the
number payload carries NaN — it is forwarded unvalidated (a payload is
produced, no parse error), and it is never a finite value, in particular
not zero. -/
theorem claim_C7 : ∀ s : String, jsParseFloat s = .nan →
    buildPayload .number s = some (.number (some .nan))
  ∧ (∀ q : ℚ, buildPayload .number s ≠ some (.number (some (.val q))))
  ∧ (buildPayload .number s).isSome = true := by
  intro s h
  refine ⟨by simp [buildPayload, h], ?_, by simp [buildPayload]⟩
  intro q hq
  simp [buildPayload, h] at hq

/-- Claim C7, witness: the unparsable input `"abc"`. -/
theorem claim_C7_witness :
    jsParseFloat "abc" = .nan ∧ buildPayload .number "abc" = some (.number (some .nan)) :=
  ⟨by decide, (claim_C7 "abc" (by decide)).1⟩

/-- Claim C8, counterexample to the claim as stated: on a concrete
non-empty export the written text's final character is the trailing
newline, not the byte-order mark. -/
theorem claim_C8_counterexample :
    exportToCSV1 [[("A", .title [⟨"x"⟩])]] = some "\uFEFFA\nx\n"
  ∧ ("\uFEFFA\nx\n" : String).toList.getLast? = some '\n'
  ∧ ('\n' : Char) ≠ '\uFEFF' := by
  refine ⟨by decide, by decide, by decide⟩

/-- Claim C8 (amended): every non-empty export destined for spreadsheet
consumers is written, the byte-order mark is the first character of the
written text (it is prepended, not appended), and the final character is
the trailing newline of the last data row. -/
theorem claim_C8 : ∀ results : List Rec, results ≠ [] →
    ∃ s, exportToCSV1 results = some s ∧ s.toList.head? = some '\uFEFF'
      ∧ s.toList.getLast? = some '\n' := by
  intro results h
  match results, h with
  | first :: rest, _ =>
    refine ⟨_, rfl, ?_, ?_⟩
    · rw [String.toList, String.data_append]
      rfl
    · exact bom_append_getLast _
        (foldl_lines_getLast _ (first :: rest) _ (append_newline_getLast _))

/-- Claim C8, witness: the amended claim at a concrete record list. -/
theorem claim_C8_witness :
    ([[(("A" : String), TypedValue.title [⟨"x"⟩])]] : List Rec) ≠ []
  ∧ ∃ s, exportToCSV1 [[("A", TypedValue.title [⟨"x"⟩])]] = some s
      ∧ s.toList.head? = some '\uFEFF' ∧ s.toList.getLast? = some '\n' :=
  ⟨by decide, claim_C8 _ (by decide)⟩

/-- Claim C9: on an empty result sequence every CSV export path returns
after reporting there is no data and writes nothing — not even a
header-only file: both `exportToCSV` variants, `saveDataToCsv` (whose
`Object.keys(data[0])` throws into the catch block before any write), and
the filtering script's `main`, which only calls its exporter when
`results.length > 0`. -/
theorem claim_C9 :
    exportToCSV1 [] = none ∧ exportToCSV2 [] = none ∧ saveDataToCsvRender [] = none
  ∧ mainCsvWrite [] = none :=
  ⟨rfl, rfl, rfl, by decide⟩

/-- Claim C10: the local overdue count counts exactly the records whose
due-date start string is non-empty and lexicographically below the today
string (the embedded JS `<` agrees with Lean's lexicographic `String`
order); a record whose due-date property is absent or whose date value is
null is never counted; and the string order diverges from chronological
order on a non-canonical date: `2025-4-9` is an earlier calendar date than
`2025-04-25` yet is not string-below it, so such a record is not counted. -/
theorem claim_C10 :
    (∀ (results : List Rec) (today : String),
      countOverdue results today = (results.filter (isOverdueRec today)).length)
  ∧ (∀ (a b : String), jsStrLt a b = true ↔ a < b)
  ∧ (∀ (today : String) (r : Rec) (rest : List Rec), r.lookup "due date" = none →
      countOverdue (r :: rest) today = countOverdue rest today)
  ∧ (∀ (today : String) (r : Rec) (rest : List Rec),
      r.lookup "due date" = some (.date none) →
      countOverdue (r :: rest) today = countOverdue rest today)
  ∧ (chronBefore "2025-4-9" "2025-04-25" = true
      ∧ jsStrLt "2025-4-9" "2025-04-25" = false
      ∧ countOverdue [[("due date", .date (some "2025-4-9"))]] "2025-04-25" = 0) := by
  have hfold : ∀ (results : List Rec) (today : String),
      countOverdue results today = (results.filter (isOverdueRec today)).length := by
    intro results today
    induction results with
    | nil => rfl
    | cons r rs ih =>
      by_cases h : isOverdueRec today r
      · show List.foldl _ _ (r :: rs) = _
        rw [List.foldl_cons]
        simp only [h, if_true, zero_add]
        rw [countOverdue_acc today rs 1]
        show 1 + countOverdue rs today = _
        rw [ih, List.filter_cons, h]
        simp [Nat.add_comm]
      · show List.foldl _ _ (r :: rs) = _
        rw [List.foldl_cons]
        simp only [h, if_false]
        show countOverdue rs today = _
        rw [ih, List.filter_cons]
        simp [h]
  refine ⟨hfold, jsStrLt_iff, ?_, ?_, by decide, by decide, by decide⟩
  · intro today r rest h
    have hov : isOverdueRec today r = false := by
      simp [isOverdueRec, dueDateStart, h]
    show List.foldl _ _ (r :: rest) = _
    rw [List.foldl_cons]
    simp [hov]
    rfl
  · intro today r rest h
    have hov : isOverdueRec today r = false := by
      simp [isOverdueRec, dueDateStart, h]
    show List.foldl _ _ (r :: rest) = _
    rw [List.foldl_cons]
    simp [hov]
    rfl

/-- Claim C10, witness: a record without a due-date property does not
change the count. -/
theorem claim_C10_witness :
    ([("memo", TypedValue.richText [])] : Rec).lookup "due date" = none
  ∧ countOverdue [[("memo", TypedValue.richText [])]] "2025-04-25" =
      countOverdue [] "2025-04-25" :=
  ⟨by decide, claim_C10.2.2.1 "2025-04-25" [("memo", TypedValue.richText [])] [] (by decide)⟩

end NotionStudy
